import Mathlib

/-!
Verification of the TurtleNLP repository (files `inpr.py`, `turtle_nlp.py`)
against its natural-language specification.

Part 1 below embeds the bytecode interpreter of `inpr.py`; part 2 embeds the
dependency-tree structure and the CSR compiler of `turtle_nlp.py`.

Conventions used throughout the shallow embedding:
* Python lists used as stacks (append / `[-1]` / pop at the end) are modelled
  as Lean lists with the *head* as the stack top.
* Python strings are Lean `String`s; `str.split()` on the space-separated
  instruction lines is modelled by splitting on `' '` and dropping empty
  pieces.
* Python exceptions are modelled with `Except`: a raised `CEList` becomes
  `Except.error (Exc.ce errs)`, an unhandled `NameError` (the source contains
  several references to undefined identifiers) becomes
  `Except.error (Exc.nameError ident)`.
-/

/-! ## Part 1: the interpreter (`inpr.py`) -/

/-- The three Python types that occur in the `opcodes` table of `inpr.py`:
`str`, `float` and `int`. -/
inductive PyTy where
  | str
  | float
  | int
deriving DecidableEq

/-- Digit run to a number; `none` when a non-digit occurs. -/
def digitsToNat : Nat → List Char → Option Nat
  | n, [] => some n
  | n, c :: cs => if c.isDigit then digitsToNat (10 * n + (c.toNat - 48)) cs else none

/-- Python's `int(s)`: optional sign followed by at least one digit
(which covers every string this program produces). -/
def pyToInt? (s : String) : Option Int :=
  match s.data with
  | [] => none
  | '-' :: ds => if ds = [] then none else (digitsToNat 0 ds).map (fun n => -(n : Int))
  | ds => if ds = [] then none else (digitsToNat 0 ds).map (fun n => (n : Int))

/-- Does Python's `int(s)` succeed? -/
def pyIntOk (s : String) : Bool := (pyToInt? s).isSome

/-- Split a character list at a separator character, keeping empty pieces
(the behaviour of Python's `str.split('.')`). -/
def splitOnChar (sep : Char) : List Char → List (List Char)
  | [] => [[]]
  | c :: cs =>
    let rest := splitOnChar sep cs
    if c = sep then [] :: rest
    else
      match rest with
      | [] => [[c]]
      | r :: rs => (c :: r) :: rs

/-- A simple model of "Python's `float(s)` succeeds": an optional sign,
digits, optionally a decimal point with more digits.  This covers the plain
decimal literals that flow through this program. -/
def pyFloatOk (s : String) : Bool :=
  let body : List Char :=
    match s.data with
    | c :: cs => if c = '-' ∨ c = '+' then cs else c :: cs
    | [] => []
  match splitOnChar '.' body with
  | [a] => a ≠ [] && a.all Char.isDigit
  | [a, b] => (a ≠ [] || b ≠ []) && a.all Char.isDigit && b.all Char.isDigit
  | _ => false

/-- Does the Python cast `typ(value)` succeed (`check_types`'s inner try)? -/
def pyCastOk (t : PyTy) (v : String) : Bool :=
  match t with
  | .str => true
  | .float => pyFloatOk v
  | .int => pyIntOk v

/-- The `opcodes` table of `inpr.py` (opcode, operand types). -/
def opcodes : List (String × List PyTy) :=
  [("fd", [.str, .float]), ("bk", [.str, .float]),
   ("rol", [.str, .float]), ("ror", [.str, .float]),
   ("shl", [.str, .float]), ("shr", [.str, .float]),
   ("up", [.str, .float]), ("down", [.str, .float]),
   ("deg", [.str]), ("rad", [.str]),
   ("create", [.str]), ("destroy", [.str]),
   ("repeat", [.int]), ("end", [])]

/-- Embedding of `check_types(values, types)` of `inpr.py` as written, for a list of
types: `False` on a length mismatch, otherwise every value must cast. -/
def check_types (values : List String) (types : List PyTy) : Bool :=
  if values.length ≠ types.length then false
  else (values.zip types).all (fun vt => pyCastOk vt.2 vt.1)

/-- The *call* `check_types(args, opcodes)` made by `Interpreter.run`
(line 92 of `inpr.py`): the second argument is the whole `opcodes` dict, not
`opcodes[op]`.  `len(opcodes)` is the number of keys (14), and if the lengths
did agree the loop would do `opcodes[i]` with an integer `i` and raise
`KeyError` (modelled as `none`).  Otherwise the call returns `False`. -/
def check_types_dictcall (values : List String) (d : List (String × List PyTy)) :
    Option Bool :=
  if values.length = d.length then none else some false

/-- Accumulator-based whitespace splitter (`acc` holds the current word
reversed). -/
def pyWordsAux : List Char → List Char → List String
  | acc, [] => if acc = [] then [] else [⟨acc.reverse⟩]
  | acc, c :: cs =>
    if c = ' ' then
      if acc = [] then pyWordsAux [] cs else (⟨acc.reverse⟩ : String) :: pyWordsAux [] cs
    else pyWordsAux (c :: acc) cs

/-- Python's `str.split()` on an instruction line (whitespace split,
empty pieces dropped). -/
def pyWords (s : String) : List String :=
  pyWordsAux [] s.data

/-- Interpreter state (`Interpreter.__init__` of `inpr.py`).  `history` is
the already-pulled instruction lines (we model a run whose input generator
has been exhausted into `history`); `output` records the
`basic_interpret` side effects `(op, args)` in emission order. -/
structure IState where
  history : List String
  line_no : Nat
  num_stack : List Int
  line_stack : List Nat
  depth : Nat
  output : List (String × List String)
deriving DecidableEq

/-- Result of one iteration of the `while True` loop in `Interpreter.run`. -/
inductive StepRes where
  | ok (s : IState)
  | err (msg : String)
  | done
deriving DecidableEq

/-- One iteration of the `while True` loop of `Interpreter.run`
(`inpr.py` lines 66-121), for a run whose generator is exhausted:
when `line_no == len(history)` the `StopIteration` branch returns. -/
def step (s : IState) : StepRes :=
  match s.history.get? s.line_no with
  | none => .done
  | some instr =>
    match pyWords instr with
    | [] => .err "ValueError: not enough values to unpack"
    | op :: args =>
      match opcodes.lookup op with
      | none => .err ("Invalid opcode " ++ op)
      | some tys =>
        if args.length ≠ tys.length then
          .err ("Invalid number of arguments for " ++ op)
        else
          match check_types_dictcall args opcodes with
          | none => .err "KeyError"
          | some true => .err "Invalid types"
          | some false =>
            if s.depth > 0 then
              let d := if op = "repeat" then s.depth + 1
                       else if op = "end" then s.depth - 1
                       else s.depth
              .ok { s with depth := d, line_no := s.line_no + 1 }
            else if op = "repeat" then
              match pyToInt? (args.headD "") with
              | none => .err "ValueError: invalid literal for int"
              | some times =>
                if times = 0 then
                  .ok { s with depth := s.depth + 1, line_no := s.line_no + 1 }
                else
                  .ok { s with num_stack := (times - 1) :: s.num_stack,
                               line_stack := (s.line_no + 1) :: s.line_stack,
                               line_no := s.line_no + 1 }
            else if op = "end" then
              match s.num_stack with
              | [] => .err "unmatched end"
              | k :: rest =>
                if k = 0 then
                  .ok { s with num_stack := rest, line_stack := s.line_stack.tail,
                               line_no := s.line_no + 1 }
                else
                  match s.line_stack with
                  | [] => .err "IndexError"
                  | r :: _ => .ok { s with num_stack := (k - 1) :: rest, line_no := r }
            else
              .ok { s with output := s.output ++ [(op, args)],
                           line_no := s.line_no + 1 }

/-- Run exactly `n` loop iterations; `none` if the run errors or ends
before that. -/
def stepsN : Nat → IState → Option IState
  | 0, s => some s
  | n + 1, s =>
    match step s with
    | .ok s' => stepsN n s'
    | _ => none

/-- Outcome of `Interpreter.run` under a fuel bound. -/
inductive RunRes where
  | halted (fin : IState)
  | failed (fin : IState) (msg : String)
  | outOfFuel (fin : IState)
deriving DecidableEq

/-- Embedding of `Interpreter.run` with fuel: iterate `step` until the input is
exhausted (`halted`) or an `InterpreterError` is raised (`failed`). -/
def run : Nat → IState → RunRes
  | 0, s => .outOfFuel s
  | n + 1, s =>
    match step s with
    | .done => .halted s
    | .err m => .failed s m
    | .ok s' => run n s'

/-- The initial interpreter state on a pre-loaded instruction list. -/
def initState (prog : List String) : IState :=
  { history := prog, line_no := 0, num_stack := [], line_stack := [],
    depth := 0, output := [] }

/-- A line is a well-formed instruction: a known opcode with the right
number of operands.  (Operand *types* are never actually checked, see
`check_types_dictcall`.) -/
def lineOk (line : String) : Bool :=
  match pyWords line with
  | [] => false
  | op :: args =>
    match opcodes.lookup op with
    | none => false
    | some tys => args.length = tys.length


/-- A position holds a well-formed instruction line. -/
def lineOkAt (hist : List String) (k : Nat) : Bool :=
  match hist[k]? with
  | some line => lineOk line
  | none => false

/-- Scan for the `end` matching an open block: from position `p` of the
remaining lines `suf` (so `suf = hist.drop p`) with `d` blocks open,
return the index of the `end` that closes the outermost one.  This mirrors
exactly how `Interpreter.run` updates `depth` while skipping. -/
def findEndAux : List String → Nat → Nat → Option Nat
  | [], _, _ => none
  | line :: rest, p, d =>
    match pyWords line with
    | op :: _ =>
      if op = "repeat" then findEndAux rest (p + 1) (d + 1)
      else if op = "end" then
        if d = 1 then some p else findEndAux rest (p + 1) (d - 1)
      else findEndAux rest (p + 1) d
    | [] => findEndAux rest (p + 1) d

/-- The `end` matching a block opened before position `p` with `d` levels
currently open. -/
def findEnd (hist : List String) (p d : Nat) : Option Nat :=
  findEndAux (hist.drop p) p d

/-! ## Part 2: dependency trees and the CSR compiler (`turtle_nlp.py`) -/

/-- Python's `str.lower()`. -/
def pyLower (s : String) : String := ⟨s.data.map Char.toLower⟩

/-- A dependency-tree node (`class Word` of `turtle_nlp.py`).  `edges` is
the `defaultdict(list)` mapping edge labels to child lists (one entry per
label, labels unique, children in insertion order).  `word_strs`,
`word_objs` and `phrase` are the derived span fields filled in by
`find_phrase` (`word_strs` is a Python set; we model it as a list and only
ever test membership). -/
inductive Word where
  | mk (text : String) (word_no : Nat) (pos : String)
       (edges : List (String × List Word))
       (word_strs : List String)
       (word_objs : List Word)
       (phrase : String)

def Word.text : Word → String
  | .mk t _ _ _ _ _ _ => t

def Word.word_no : Word → Nat
  | .mk _ n _ _ _ _ _ => n

def Word.pos : Word → String
  | .mk _ _ p _ _ _ _ => p

def Word.edges : Word → List (String × List Word)
  | .mk _ _ _ es _ _ _ => es

def Word.word_strs : Word → List String
  | .mk _ _ _ _ ws _ _ => ws

def Word.word_objs : Word → List Word
  | .mk _ _ _ _ _ wo _ => wo

def Word.phrase : Word → String
  | .mk _ _ _ _ _ _ ph => ph

/-- Lookup `word.edges[label]` under defaultdict semantics: the stored child list,
or `[]` for an absent label. -/
def Word.edgesOf (w : Word) (label : String) : List Word :=
  match w.edges.find? (fun e => e.1 = label) with
  | some e => e.2
  | none => []

/-- Python's `label in word.edges` (key presence). -/
def Word.hasEdge (w : Word) (label : String) : Bool :=
  (w.edges.find? (fun e => e.1 = label)).isSome

/-- Embedding of `Word.get(edge_seq)` of `turtle_nlp.py`: start from `[self]` and at each
label replace the list by the concatenation of the members' children under
that label. -/
def Word.get (w : Word) (edge_seq : List String) : List Word :=
  edge_seq.foldl (fun wordlist edge => wordlist.flatMap (fun x => x.edgesOf edge)) [w]

/-- Embedding of `word.children_iter()`: all children, label entries in dict order. -/
def Word.childrenAll (w : Word) : List Word := w.edges.flatMap (fun e => e.2)

/-- Stable insertion used by `sortByNo`: keep walking while the existing
element's index is strictly smaller. -/
def insertByNo (x : Word) : List Word → List Word
  | [] => [x]
  | y :: ys => if y.word_no < x.word_no then y :: insertByNo x ys else x :: y :: ys

/-- Stable sort by `word_no`, modelling Python's stable `list.sort(key=
lambda x: x.word_no)`. -/
def sortByNo : List Word → List Word
  | [] => []
  | x :: xs => insertByNo x (sortByNo xs)

/-- Python's `' '.join(...)`. -/
def joinSpace (l : List String) : String := String.intercalate " " l

/-- Predicate stating that `n` levels of fuel cover the whole tree under `w`.  All recursive tree
functions below take a fuel parameter (a standard shallow-embedding device
that keeps them kernel-computable); `treeFits n w` is the hypothesis that
the fuel is enough, and is decidable on concrete trees. -/
def treeFits : Nat → Word → Bool
  | 0, _ => false
  | n + 1, w => w.childrenAll.all (treeFits n)

/-- Embedding of `find_phrase` of `turtle_nlp.py` (lines 132-147), fuel-indexed.
Per label the child list is sorted by `word_no` and each child recursively
processed; the node's span (`word_objs`) is then (children left of the
node, in index order) ++ [the node itself] ++ (children right of the node);
`word_strs` is the union of the children's string sets plus the node's
text, and `phrase` the space-join of the span's texts.  The node inside its
own span is represented shallowly (correct `text`/`word_no`/`pos`/`edges`;
the cyclic derived fields are left empty — no consumer reads them). -/
def find_phrase : Nat → Word → Word
  | 0, w => w
  | n + 1, w =>
    match w with
    | .mk t i p es _ _ _ =>
      let edges2 := es.map (fun e => (e.1, (sortByNo e.2).map (find_phrase n)))
      let kids := sortByNo (edges2.flatMap (fun e => e.2))
      let lefts := (kids.filter (fun c => c.word_no < i)).flatMap Word.word_objs
      let rights := (kids.filter (fun c => ¬ (c.word_no < i))).flatMap Word.word_objs
      let strs := [t] ++ kids.flatMap Word.word_strs
      let selfW := Word.mk t i p edges2 [] [] ""
      let wobjs := lefts ++ [selfW] ++ rights
      Word.mk t i p edges2 strs wobjs (joinSpace (wobjs.map Word.text))

/-- Embedding of `delete_edges(word, labels_to_del)` of `turtle_nlp.py` (lines 149-168):
rebuild the edge dict keeping only labels not in `labels_to_del` (same
child lists), then recompute `word_strs` / `word_objs` / `phrase` exactly as
`find_phrase` does but *without* recursing into the children (their stored
spans are reused). -/
def delete_edges (w : Word) (labels_to_del : List String) : Word :=
  match w with
  | .mk t i p es _ _ _ =>
    let edges2 := es.foldl (fun acc e => if labels_to_del.contains e.1 then acc else acc ++ [e]) []
    let kids := sortByNo (edges2.flatMap (fun e => e.2))
    let lefts := (kids.filter (fun c => c.word_no < i)).flatMap Word.word_objs
    let rights := (kids.filter (fun c => ¬ (c.word_no < i))).flatMap Word.word_objs
    let strs := [t] ++ kids.flatMap Word.word_strs
    let selfW := Word.mk t i p edges2 [] [] ""
    let wobjs := lefts ++ [selfW] ++ rights
    Word.mk t i p edges2 strs wobjs (joinSpace (wobjs.map Word.text))

/-- All nodes of the subtree rooted at `w` (preorder), fuel-indexed. -/
def subtreeWords : Nat → Word → List Word
  | 0, _ => []
  | n + 1, w => w :: w.childrenAll.flatMap (subtreeWords n)

/-- The sentence indices occurring in `w`'s subtree. -/
def subtreeNos (n : Nat) (w : Word) : List Nat := (subtreeWords n w).map Word.word_no

/-- Local projectivity at one node: every child's subtree lies entirely on
the same side of the node as the child itself, and subtrees of
differently-indexed children do not interleave. -/
def SepAt (n : Nat) (w : Word) : Prop :=
  (∀ c ∈ w.childrenAll,
    (c.word_no < w.word_no → ∀ i ∈ subtreeNos n c, i < w.word_no) ∧
    (w.word_no < c.word_no → ∀ i ∈ subtreeNos n c, w.word_no < i)) ∧
  (∀ c ∈ w.childrenAll, ∀ c2 ∈ w.childrenAll, c.word_no < c2.word_no →
    ∀ i ∈ subtreeNos n c, ∀ j ∈ subtreeNos n c2, i < j)

/-- Projectivity of a dependency tree: every node is locally projective. -/
def Projective (n : Nat) (w : Word) : Prop := ∀ v ∈ subtreeWords n w, SepAt n v

/-- Names of the three concrete CSR classes (`MakeCSR`, `MoveCSR`,
`AndCSR`). -/
inductive CSRName where
  | makeCSR
  | moveCSR
  | andCSR
deriving DecidableEq

/-- The value stored in a `CompileError`'s `errcode` attribute.  Python is
dynamically typed and `apply_csrs` in fact stores a *list of CSRs* there
(see `ManyCSRCE`), so the field is a sum. -/
inductive ErrCode where
  | str (s : String)
  | csrs (l : List CSRName)
deriving DecidableEq

/-- Python truthiness of an `errcode` value (`errcode or 'DEFAULT'`). -/
def ErrCode.truthy : ErrCode → Bool
  | .str s => s ≠ ""
  | .csrs l => l ≠ []

/-- One `CompileError` (`turtle_nlp.py` lines 14-87): error code, the
`word_no` of the word the error is attached to, the message, and the
`csr_list` attribute of `ManyCSRCE` (empty for every other class). -/
structure CE where
  errcode : ErrCode
  word_no : Nat
  message : String
  csr_list : List CSRName := []
deriving DecidableEq

/-- The repr of the `csr_list` default value `()` used in `ManyCSRCE`'s
message (the only call site leaves it defaulted, see `apply_csrs`). -/
def csrsRepr (l : List CSRName) : String :=
  match l with
  | [] => "()"
  | _ => "[...]"

/-- Constructor `NoCSRCE(word)`. -/
def NoCSRCE (w : Word) (errcode : ErrCode := .str "") : CE :=
  { errcode := if errcode.truthy then errcode else .str "NOCSR",
    word_no := w.word_no, message := "No CSR was detected." }

/-- Constructor `ManyCSRCE(word, errcode='', csr_list=())`: note that `errcode` is the
*second positional* parameter and `csr_list` the third — `apply_csrs`
passes the list of matching CSRs positionally, so it lands in `errcode`. -/
def ManyCSRCE (w : Word) (errcode : ErrCode := .str "") (csr_list : List CSRName := []) : CE :=
  { errcode := if errcode.truthy then errcode else .str "MANYCSR",
    word_no := w.word_no,
    message := "Multiple CSRs detected: " ++ csrsRepr csr_list ++ ".",
    csr_list := csr_list }

/-- Constructor `MissingDataCE(word, param=...)`. -/
def MissingDataCE (w : Word) (param : String) : CE :=
  { errcode := .str "NODATA", word_no := w.word_no,
    message := "No value specified for " ++ param ++ "." }

/-- Constructor `BadDataCE(word, param=..., value=...)`. -/
def BadDataCE (w : Word) (param value : String) : CE :=
  { errcode := .str "BADDATA", word_no := w.word_no,
    message := value ++ " is an invalid value for " ++ param ++ "." }

/-- Constructor `BadCCCE(word, objtype=..., cc=...)`. -/
def BadCCCE (w : Word) (objtype cc : String) : CE :=
  { errcode := .str "BADCC", word_no := w.word_no,
    message := objtype ++ " should be connected by " ++ cc ++ "." }

/-- Constructor `TooManyValuesCE(word, param=...)`. -/
def TooManyValuesCE (w : Word) (param : String) : CE :=
  { errcode := .str "MANYVAL", word_no := w.word_no,
    message := "Too many values specified for " ++ param ++ "." }

/-- The exceptions the compiler half can raise: a `CEList`, an unhandled
Python `NameError`-class exception over the given undefined identifier
(`turtle_nlp.py` references the undefined names `errmsg`, `TooManyValues`,
`errcode` and, in `MoveCSR.apply`, can return an unbound `output`), or fuel
exhaustion of the shallow embedding. -/
inductive Exc where
  | ce (errors : List CE)
  | nameError (ident : String)
  | outOfFuel
deriving DecidableEq

/-- CSR parameter sets (the dicts built by the `detect` methods; `AndCSR`
uses its parts list directly as its parameter value, each part being either
a literal instruction string or a sub-phrase `Word`). -/
inductive PhrasePart where
  | instr (s : String)
  | word (w : Word)

/-- The per-CSR parameter dictionaries. -/
inductive Params where
  | move (action unit amount direction : String) (names : List String)
  | make (action : String) (names : List String)
  | andp (parts : List PhrasePart)

/-- Predicate `is_name_word` inside `get_names`. -/
def is_name_word (include_others : Bool) (x : Word) : Bool :=
  x.pos = "NNP" || (include_others && (x.text = "turtle" || x.text = "everyone"))

/-- Embedding of `get_names(dobj_word, include_others, errlist)` (`turtle_nlp.py` lines
235-258): returns the extracted name words and the extended error list. -/
def get_names (dobj_word : Word) (include_others : Bool) (errlist : List CE) :
    List Word × List CE :=
  let errlist :=
    if dobj_word.hasEdge "cc" && dobj_word.hasEdge "conj" then
      if (dobj_word.edgesOf "cc").map Word.text ≠ ["and"] then
        errlist ++ [BadCCCE dobj_word "Turtle names" "and"]
      else errlist
    else errlist
  let and_names := dobj_word :: dobj_word.edgesOf "conj"
  and_names.foldl
    (fun acc name =>
      if is_name_word include_others name then (acc.1 ++ [name], acc.2)
      else if name.hasEdge "compound" then
        let compound_edges := name.edgesOf "compound"
        if compound_edges.length = 1 ∧ is_name_word include_others (compound_edges.headD name) then
          (acc.1 ++ [compound_edges.headD name], acc.2)
        else acc
      else (acc.1, acc.2 ++ [BadDataCE dobj_word "name" name.text]))
    ([], errlist)

/-- Table `MakeCSR.actions`. -/
def make_actions : List (String × String) :=
  [("make", "create"), ("create", "create"), ("build", "create"),
   ("spawn", "create"), ("destroy", "destroy"), ("remove", "destroy"),
   ("kill", "destroy")]

/-- The `check_acl_xcomp_roots` closure inside `MakeCSR.detect`: raises a
`CEList` when there is no embedded clause, appends a `TooManyValuesCE` when
there are several. -/
def check_acl_xcomp (dobj_word : Word) (acl_xcomp_roots : List Word)
    (errlist : List CE) : Except Exc (List CE) :=
  if acl_xcomp_roots.length = 0 then .error (.ce [MissingDataCE dobj_word "names"])
  else if acl_xcomp_roots.length > 1 then .ok (errlist ++ [TooManyValuesCE dobj_word "names"])
  else .ok errlist

/-- Tail of `MakeCSR.detect`: lower-case the names, raise the accumulated
errors if any, otherwise return the parameter set. -/
def MakeCSR_finish (action : String) (name_words : List Word) (errlist : List CE) :
    Except Exc (Option Params) :=
  if errlist ≠ [] then .error (.ce errlist)
  else .ok (some (.make action (name_words.map (fun x => pyLower x.text))))

/-- Embedding of `MakeCSR.detect` (`turtle_nlp.py` lines 272-347). -/
def MakeCSR_detect (w : Word) : Except Exc (Option Params) :=
  let action_words := w.word_objs.filter
    (fun x => (make_actions.lookup (pyLower x.text)).isSome && x.pos = "VB")
  match action_words with
  | [action_word] =>
    let action := (make_actions.lookup (pyLower action_word.text)).getD ""
    match action_word.get ["dobj"] with
    | [] => .error (.ce [MissingDataCE w "direct object"])
    | dobj_word :: extra_dobjs => do
      let errlist0 := if extra_dobjs.isEmpty then [] else [TooManyValuesCE w "direct object"]
      let dobj_dets := (dobj_word.get ["det"]).map Word.text
      let acl_xcomp_roots := dobj_word.get ["acl", "xcomp"]
      let nwsInit :=
        match acl_xcomp_roots with
        | r :: _ => get_names r (action ≠ "create") errlist0
        | [] => (([] : List Word), errlist0)
      if dobj_word.text = "turtles" then do
        let el ← check_acl_xcomp dobj_word acl_xcomp_roots nwsInit.2
        MakeCSR_finish action nwsInit.1 el
      else if dobj_word.text = "turtle" then do
        let res ←
          if action = "create" then
            if dobj_dets = ["a"] ∨ dobj_dets = [] then do
              let el ← check_acl_xcomp dobj_word acl_xcomp_roots nwsInit.2
              pure (nwsInit.1, el)
            else
              pure (nwsInit.1,
                nwsInit.2 ++ [BadDataCE dobj_word "turtle determinant" (dobj_dets.headD "")])
          else
            if dobj_dets = ["the"] then
              if acl_xcomp_roots.length > 0 then do
                let el ← check_acl_xcomp dobj_word acl_xcomp_roots nwsInit.2
                pure (nwsInit.1, el)
              else pure ([dobj_word], nwsInit.2)
            else if dobj_dets = [] then do
              let el ← check_acl_xcomp dobj_word acl_xcomp_roots nwsInit.2
              pure (nwsInit.1, el)
            else
              pure (nwsInit.1,
                nwsInit.2 ++ [BadDataCE dobj_word "turtle determinant" (dobj_dets.headD "")])
        let el2 :=
          if res.1.length > 1 then res.2 ++ [TooManyValuesCE dobj_word "names"]
          else if res.1.length = 0 then res.2 ++ [MissingDataCE dobj_word "names"]
          else res.2
        MakeCSR_finish action res.1 el2
      else
        let r2 := get_names dobj_word (action ≠ "create") errlist0
        MakeCSR_finish action r2.1 r2.2
  | _ => .ok none

/-- Embedding of `MakeCSR.apply` (`turtle_nlp.py` lines 349-356). -/
def MakeCSR_apply (action : String) (names : List String) : List String :=
  if action = "destroy" && names.contains "everyone" then ["destroy everyone"]
  else names.map (fun name => action ++ " " ++ name)

/-- Table `MoveCSR.directions`. -/
def move_directions : List (String × String) :=
  [("ahead", "fd"), ("forward", "fd"), ("forwards", "fd"),
   ("backward", "bk"), ("backwards", "bk"),
   ("up", "up"), ("upward", "up"), ("upwards", "up"),
   ("down", "down"), ("downward", "down"), ("downwards", "down"),
   ("left", "left"), ("leftward", "left"), ("leftwards", "left"),
   ("anticlockwise", "left"), ("counterclockwise", "left"),
   ("right", "right"), ("rightward", "right"), ("rightwards", "right"),
   ("clockwise", "right")]

/-- Table `MoveCSR.units`. -/
def move_units : List (String × String) :=
  [("unit", "pixel"), ("units", "pixel"), ("step", "pixel"), ("steps", "pixel"),
   ("pixel", "pixel"), ("pixels", "pixel"),
   ("degree", "deg"), ("degrees", "deg"), ("radian", "rad"), ("radians", "rad")]

/-- Table `MoveCSR.actions`. -/
def move_actions : List (String × String) :=
  [("move", "move"), ("turn", "turn"), ("rotate", "turn")]

/-- Tail of `MoveCSR.detect` after the direction dispatch (`turtle_nlp.py`
lines 448-458): direct object, name extraction, raise-or-return. -/
def MoveCSR_detect_rest (w action_word : Word) (action unit amount : String)
    (direction : Option String) (errlist : List CE) : Except Exc (Option Params) :=
  match action_word.get ["dobj"] with
  | [] => .error (.ce [MissingDataCE w "direct object"])
  | dobj_word :: extra_dobjs =>
    let errlist := errlist ++
      (if extra_dobjs.isEmpty then [] else [TooManyValuesCE w "direct object"])
    let res := get_names dobj_word true errlist
    let names := res.1.map (fun nw => pyLower nw.text)
    if res.2 ≠ [] then .error (.ce res.2)
    else .ok (some (.move action unit amount (direction.getD "") names))

/-- Embedding of `MoveCSR.detect` (`turtle_nlp.py` lines 399-458).  On more than one
direction word the source evaluates the undefined name `TooManyValues`
(line 444; the class is called `TooManyValuesCE`), so Python raises a
`NameError` before anything is appended to the error list. -/
def MoveCSR_detect (w : Word) : Except Exc (Option Params) :=
  let action_words := w.word_objs.filter
    (fun x => (move_actions.lookup (pyLower x.text)).isSome && x.pos = "VB")
  let direction_words := w.word_objs.filter
    (fun x => (move_directions.lookup x.text).isSome)
  let unit_words := w.word_objs.filter
    (fun x => (move_units.lookup x.text).isSome)
  match action_words, unit_words with
  | [action_word], [unit_word] =>
    let action := (move_actions.lookup (pyLower action_word.text)).getD ""
    let unit := (move_units.lookup unit_word.text).getD ""
    match (unit_word.get ["nummod"]).head? with
    | none => .ok none
    | some amount_word =>
      let amount := amount_word.text
      match direction_words with
      | [] => MoveCSR_detect_rest w action_word action unit amount none
                [MissingDataCE w "direction"]
      | [dw] => MoveCSR_detect_rest w action_word action unit amount
                (some ((move_directions.lookup dw.text).getD "")) []
      | _ => .error (.nameError "TooManyValues")
  | _, _ => .ok none

/-- Model of CPython's `str(float(s))` for the plain decimal literals this
program produces: appends `.0` to an integer literal. -/
def pyFloatStr (s : String) : String :=
  if (splitOnChar '.' s.data).length = 1 then s ++ ".0" else s

/-- Shortcut for `if errlist: raise CEList(errlist); else return output`. -/
def raiseOrOut (errlist : List CE) (output : List String) : Except Exc (List String) :=
  if errlist ≠ [] then .error (.ce errlist) else .ok output

/-- Embedding of `MoveCSR.apply` (`turtle_nlp.py` lines 460-499).  In branches where the
source leaves `output` unassigned it also puts an error in `errlist`, so
the `raise` fires first — except for an action other than `move`/`turn`,
where `return output` would hit the unbound local (unreachable from
`detect`). -/
def MoveCSR_apply (w : Word) (action unit amount direction : String)
    (names : List String) : Except Exc (List String) :=
  if ¬ pyFloatOk amount then .error (.ce [BadDataCE w "number" amount])
  else
    let amtS := pyFloatStr amount
    if action = "move" then
      let errlist := if unit ≠ "pixel" then [BadDataCE w "movement unit" unit] else []
      if direction = "fd" ∨ direction = "bk" ∨ direction = "up" ∨ direction = "down" then
        raiseOrOut errlist (names.map (fun name => direction ++ " " ++ name ++ " " ++ amtS))
      else if direction = "left" then
        raiseOrOut errlist (names.map (fun name => "shl " ++ name ++ " " ++ amtS))
      else if direction = "right" then
        raiseOrOut errlist (names.map (fun name => "shr " ++ name ++ " " ++ amtS))
      else .error (.ce (errlist ++ [BadDataCE w "movement direction" direction]))
    else if action = "turn" then
      if unit = "deg" ∨ unit = "rad" then
        let output := names.map (fun name => unit ++ " " ++ name)
        if direction = "left" then
          raiseOrOut [] (output ++ names.map (fun name => "rol " ++ name ++ " " ++ amtS))
        else if direction = "right" then
          raiseOrOut [] (output ++ names.map (fun name => "ror " ++ name ++ " " ++ amtS))
        else .error (.ce [BadDataCE w "rotational direction" direction])
      else .error (.ce [BadDataCE w "rotational unit" unit])
    else .error (.nameError "output")

/-- The `for word in reversed(parts)` loop of `AndCSR.detect`
(`turtle_nlp.py` lines 520-549), given the already-reversed parts;
accumulates the repetition-count stack and the output list (both appended
at the tail exactly as the source does).  On two or more `times` words the
source constructs `TooManyOccsCE`, whose `__init__` reads the undefined
name `errcode` (line 85), so Python raises a `NameError`. -/
def AndCSR_loop : List Word → List Int → List PhrasePart →
    Except Exc (List Int × List PhrasePart)
  | [], stack, output => .ok (stack, output)
  | word :: rest, stack, output =>
    if pyLower word.text = "do" ∨ pyLower word.text = "repeat" then
      let output := output ++ [.instr "end"]
      let times_words := word.word_objs.filter (fun x => x.text = "times")
      if times_words.length > 1 then .error (.nameError "errcode")
      else if times_words.length = 1 then
        match ((times_words.headD word).get ["nummod"]).head? with
        | none => .error (.ce [MissingDataCE word "loop repetitions"])
        | some amount_word =>
          match pyToInt? amount_word.text with
          | none => .error (.ce [BadDataCE word "loop repetitions" amount_word.text])
          | some amount => AndCSR_loop rest (stack ++ [amount]) output
      else
        if word.word_strs.contains "once" then AndCSR_loop rest (stack ++ [1]) output
        else if word.word_strs.contains "twice" then AndCSR_loop rest (stack ++ [2]) output
        else if word.word_strs.contains "thrice" then AndCSR_loop rest (stack ++ [3]) output
        else .error (.ce [MissingDataCE word "loop repetitions"])
    else AndCSR_loop rest stack (output ++ [.word word])

/-- Embedding of `AndCSR.detect` (`turtle_nlp.py` lines 503-551).  When exactly one of
`conj`/`cc` is present the source evaluates the undefined name `errmsg`
(line 507) while building a `CompileError`, so Python raises a `NameError`
instead of the intended `CONJCC` error.  Otherwise, with both present, every
`cc` text must be `and`; then the `conj`/`cc` edges are deleted from the
node, the parts list is `[node] + conj_words`, the reversed parts are
folded by `AndCSR_loop`, and the result is the `repeat N` markers followed
by the re-reversed output. -/
def AndCSR_detect (w : Word) : Except Exc (Option (List PhrasePart)) :=
  let conj_words := w.get ["conj"]
  let cc_words := w.get ["cc"]
  if (¬ conj_words.isEmpty ∧ cc_words.isEmpty) ∨ (conj_words.isEmpty ∧ ¬ cc_words.isEmpty) then
    .error (.nameError "errmsg")
  else if ¬ (¬ conj_words.isEmpty ∧ ¬ cc_words.isEmpty) then .ok none
  else
    match cc_words.find? (fun x => x.text ≠ "and") with
    | some x => .error (.ce [BadDataCE w "cc" x.text])
    | none =>
      let w2 := delete_edges w ["conj", "cc"]
      let parts := w2 :: conj_words
      match AndCSR_loop parts.reverse [] [] with
      | .error e => .error e
      | .ok (stack, output) =>
        .ok (some (stack.map (fun x => PhrasePart.instr ("repeat " ++ toString x))
                   ++ output.reverse))

/-- Embedding of `AndCSR.apply` (`turtle_nlp.py` lines 553-555), with the recursive
`convert` call abstracted as `conv` (it is instantiated with `convert n`
below): compile each `Word` part, pass each literal instruction through,
and concatenate. -/
def AndCSR_apply (conv : Word → Except Exc (List String))
    (params : List PhrasePart) : Except Exc (List String) := do
  let output_list ← params.mapM
    (fun part => match part with
      | .word wd => conv wd
      | .instr s => pure [s])
  pure output_list.flatten

/-- The `csr.detect(word)` dispatch over the three concrete CSRs. -/
def CSR_detect (csr : CSRName) (w : Word) : Except Exc (Option Params) :=
  match csr with
  | .andCSR => (AndCSR_detect w).map (fun o => o.map Params.andp)
  | .makeCSR => MakeCSR_detect w
  | .moveCSR => MoveCSR_detect w

/-- The `csr.apply(word, params)` dispatch (the last case is unreachable: each
CSR only ever receives the parameter set its own `detect` produced). -/
def CSR_apply (conv : Word → Except Exc (List String)) (csr : CSRName)
    (w : Word) (params : Params) : Except Exc (List String) :=
  match csr, params with
  | .andCSR, .andp parts => AndCSR_apply conv parts
  | .makeCSR, .make action names => .ok (MakeCSR_apply action names)
  | .moveCSR, .move action unit amount direction names =>
    MoveCSR_apply w action unit amount direction names
  | _, _ => .error (.nameError "params")

/-- Pool `terminal_CSRs = [MakeCSR(), MoveCSR()]`. -/
def terminal_CSRs : List CSRName := [.makeCSR, .moveCSR]

/-- Pool `nonterminal_CSRs = [AndCSR()]`. -/
def nonterminal_CSRs : List CSRName := [.andCSR]

/-- Embedding of `get_csrs(word, csr_list)` (`turtle_nlp.py` lines 560-566): collect the
CSRs whose `detect` returns a non-`None` parameter set, in pool order; a
raising `detect` propagates immediately. -/
def get_csrs (w : Word) (pool : List CSRName) :
    Except Exc (List (CSRName × Params)) :=
  pool.foldlM
    (fun acc csr => do
      match ← CSR_detect csr w with
      | some params => pure (acc ++ [(csr, params)])
      | none => pure acc)
    []

/-- Embedding of `apply_csrs(word, csr_list)` (`turtle_nlp.py` lines 568-577).  With
more than one match it raises `CEList([ManyCSRCE(word, list(csr_params.
keys()))])` — the CSR list is passed *positionally*, landing in the
`errcode` parameter, while `csr_list` keeps its default `()`. -/
def apply_csrs (conv : Word → Except Exc (List String)) (w : Word)
    (pool : List CSRName) : Except Exc (Option (List String)) := do
  let csr_params ← get_csrs w pool
  match csr_params with
  | [] => pure none
  | [(csr, params)] => do pure (some (← CSR_apply conv csr w params))
  | many => .error (.ce [ManyCSRCE w (.csrs (many.map (fun x => x.1)))])

/-- Embedding of `convert(word)` (`turtle_nlp.py` lines 588-593), fuel-indexed for the
recursion through `AndCSR.apply`.  `apply_csrs(nonterminal) or
apply_csrs(terminal)` uses Python truthiness: a `None` *or empty* first
result falls through to the terminal pool. -/
def convert : Nat → Word → Except Exc (List String)
  | 0, _ => .error .outOfFuel
  | n + 1, w => do
    let first ← apply_csrs (convert n) w nonterminal_CSRs
    let output ←
      match first with
      | some out => if out.isEmpty then apply_csrs (convert n) w terminal_CSRs
                    else pure (some out)
      | none => apply_csrs (convert n) w terminal_CSRs
    match output with
    | some out => pure out
    | none => .error (.ce [NoCSRCE w])

/-! ## Concrete example trees used by the claim theorems -/

/-- A freshly-constructed `Word` (before `find_phrase` fills the derived
fields), as built by `parse_sentence`. -/
def rawW (t : String) (n : Nat) (p : String) (es : List (String × List Word)) : Word :=
  .mk t n p es [] [] ""

/-- Dependency tree of `make Alice and make Bob and do it twice`:
the root verb carries `cc` edges to both `and`s and `conj` edges to the
second `make` and to the wrapper `do` (whose span contains `it twice`). -/
def andRaw : Word :=
  rawW "make" 1 "VB"
    [("dobj", [rawW "Alice" 2 "NNP" []]),
     ("cc", [rawW "and" 3 "CC" [], rawW "and" 6 "CC" []]),
     ("conj", [rawW "make" 4 "VB" [("dobj", [rawW "Bob" 5 "NNP" []])],
               rawW "do" 7 "VB" [("dobj", [rawW "it" 8 "PRP" []]),
                                 ("advmod", [rawW "twice" 9 "RB" []])]])]

/-- The compiled (span-annotated) root of `andRaw`. -/
def andRoot : Word := find_phrase 5 andRaw

/-- The two processed conjunct subtrees of `andRoot` (these are literally
the values stored under its `conj` label). -/
def andPartB : Word := find_phrase 4 (rawW "make" 4 "VB" [("dobj", [rawW "Bob" 5 "NNP" []])])

/-- The processed wrapper subtree `do it twice` of `andRoot`. -/
def andPartW : Word := find_phrase 4 (rawW "do" 7 "VB" [("dobj", [rawW "it" 8 "PRP" []]),
                                                       ("advmod", [rawW "twice" 9 "RB" []])])

/-- A span whose words match both `MoveCSR` (one `move` verb, one unit word
with a `nummod` amount, one direction) and `MakeCSR` (one `make` verb with
its own direct object): `move Alice 10 pixels forward` with an embedded
`make Bob`. -/
def bothRaw : Word :=
  rawW "move" 1 "VB"
    [("dobj", [rawW "Alice" 2 "NNP" []]),
     ("nmod", [rawW "pixels" 4 "NNS" [("nummod", [rawW "10" 3 "CD" []])]]),
     ("advmod", [rawW "forward" 5 "RB" []]),
     ("xcomp", [rawW "make" 6 "VB" [("dobj", [rawW "Bob" 7 "NNP" []])]])]

/-- The compiled root of `bothRaw`. -/
def bothRoot : Word := find_phrase 5 bothRaw

/-- A single pronoun, matched by no CSR. -/
def noneRoot : Word := find_phrase 2 (rawW "it" 1 "PRP" [])

/-- A node with a `conj` edge but no `cc` edge. -/
def conjOnlyW : Word := rawW "A" 1 "NN" [("conj", [rawW "B" 2 "NN" []])]

/-- A node with parallel `cc`/`conj` edges whose conjunction word is `or`. -/
def orCCW : Word := rawW "A" 1 "NN" [("cc", [rawW "or" 2 "CC" []]),
                                     ("conj", [rawW "B" 3 "NN" []])]

/-- Tree of `move Alice forward left 10 pixels`: a matched `MoveCSR` pattern with
two direction words. -/
def twoDirRoot : Word := find_phrase 4
  (rawW "move" 1 "VB"
    [("dobj", [rawW "Alice" 2 "NNP" []]),
     ("advmod", [rawW "forward" 3 "RB" [], rawW "left" 4 "RB" []]),
     ("nmod", [rawW "pixels" 6 "NNS" [("nummod", [rawW "10" 5 "CD" []])]])])

/-- Tree of `move Alice 10 pixels`: a matched `MoveCSR` pattern with no direction
word. -/
def noDirRoot : Word := find_phrase 4
  (rawW "move" 1 "VB"
    [("dobj", [rawW "Alice" 2 "NNP" []]),
     ("nmod", [rawW "pixels" 6 "NNS" [("nummod", [rawW "10" 5 "CD" []])]])])

/-- A non-projective three-node tree: the root `b` (index 2) has the child
`a` (index 1), whose own child `c` has index 3 — the subtree of `a`
straddles its governor `b`. -/
def nonProjW : Word :=
  rawW "b" 2 "X" [("dep", [rawW "a" 1 "X" [("dep", [rawW "c" 3 "X" []])]])]

/-- Tree of `make Alice`: matched by `MakeCSR` alone. -/
def makeOnlyRoot : Word := find_phrase 3 (rawW "make" 1 "VB" [("dobj", [rawW "Alice" 2 "NNP" []])])

/-- A small tree for the `delete_edges` frame witness. -/
def delExW : Word :=
  rawW "A" 1 "NN" [("cc", [rawW "and" 2 "CC" []]), ("dobj", [rawW "C" 3 "NNP" []])]

/-- The observable identity of a span element: its index and text. -/
def fwt (x : Word) : Nat × String := (x.word_no, x.text)

instance sepAtDecidable (n : Nat) (w : Word) : Decidable (SepAt n w) := by
  unfold SepAt
  infer_instance

instance projectiveDecidable (n : Nat) (w : Word) : Decidable (Projective n w) := by
  unfold Projective
  infer_instance

/-- A projective four-word tree (root index 2; left child 1; right child 3
with its own child 4). -/
def projExW : Word :=
  rawW "loves" 2 "VBZ"
    [("nsubj", [rawW "Mary" 1 "NNP" []]),
     ("dobj", [rawW "cake" 3 "NN" [("amod", [rawW "sweet" 4 "JJ" []])]])]


/-! ## Helper lemmas about the interpreter -/

theorem opcodes_tys_le_two (op : String) (tys : List PyTy)
    (h : opcodes.lookup op = some tys) : tys.length ≤ 2 := by
  simp only [opcodes, List.lookup] at h
  repeat' split at h
  all_goals simp_all
  all_goals (rw [← h]; decide)

theorem lookup_eq_none_of {α β : Type} [BEq α] [LawfulBEq α]
    (l : List (α × β)) (a : α) (h : ∀ x y, (x, y) ∈ l → ¬ a = x) :
    l.lookup a = none := by
  induction l with
  | nil => rfl
  | cons e es ih =>
    have hne : (a == e.1) = false := by
      have := h e.1 e.2 (by simp)
      simp [this]
    obtain ⟨x, y⟩ := e
    simp only [List.lookup, hne]
    exact ih (fun x y hxy => h x y (List.mem_cons_of_mem _ hxy))

theorem dictcall_false (args : List String) (tys : List PyTy)
    (hlen : args.length = tys.length) (hle : tys.length ≤ 2) :
    check_types_dictcall args opcodes = some false := by
  have h14 : opcodes.length = 14 := by decide
  unfold check_types_dictcall
  rw [if_neg]
  omega

theorem step_repeat_pos (s : IState) (line a : String) (N : Int)
    (hd : s.depth = 0)
    (hget : s.history[s.line_no]? = some line)
    (hwords : pyWords line = ["repeat", a])
    (hint : pyToInt? a = some N) (hpos : 0 < N) :
    step s = .ok { s with num_stack := (N - 1) :: s.num_stack, line_stack := (s.line_no + 1) :: s.line_stack, line_no := s.line_no + 1 } := by
  have hN0 : ¬ (N = 0) := by omega
  simp [step, hget, hwords, List.lookup, opcodes, check_types_dictcall, hd, hint, hN0]

/-- C3: `repeat 3 / fd a 10 / end` emits exactly three `(fd, [a, 10])`
side effects in order and ends with the program counter past the `end`;
and in general a `repeat N` with `N > 0` at depth 0 pushes `(N-1, pc+1)`
onto the loop stacks and advances. -/
theorem c3_repeat_three_emissions :
    (run 20 (initState ["repeat 3", "fd a 10", "end"]) =
      .halted { history := ["repeat 3", "fd a 10", "end"], line_no := 3,
                num_stack := [], line_stack := [], depth := 0,
                output := [("fd", ["a", "10"]), ("fd", ["a", "10"]), ("fd", ["a", "10"])] })
    ∧ (∀ (s : IState) (line a : String) (N : Int),
      s.depth = 0 →
      s.history[s.line_no]? = some line →
      pyWords line = ["repeat", a] →
      pyToInt? a = some N → 0 < N →
      step s = .ok { s with num_stack := (N - 1) :: s.num_stack, line_stack := (s.line_no + 1) :: s.line_stack, line_no := s.line_no + 1 }) := by
  refine ⟨by decide, ?_⟩
  intro s line a N hd hget hwords hint hpos
  exact step_repeat_pos s line a N hd hget hwords hint hpos

/-- Witness for the hypothesised part of `c3_repeat_three_emissions`. -/
theorem c3_witness :
    step { history := ["repeat 2"], line_no := 0, num_stack := [], line_stack := [],
           depth := 0, output := [] } =
    .ok { history := ["repeat 2"], line_no := 1, num_stack := [1], line_stack := [1],
          depth := 0, output := [] } :=
  c3_repeat_three_emissions.2
    { history := ["repeat 2"], line_no := 0, num_stack := [], line_stack := [],
      depth := 0, output := [] }
    "repeat 2" "2" 2 rfl rfl rfl rfl (by decide)

/-- C4: an `end` at depth 0 with an empty loop stack raises the fatal
`unmatched end` interpreter error (halting the run); with top count 0 it
pops both stacks and advances; with top count positive it decrements the
top and jumps to the stored resume point. -/
theorem c4_end_instruction :
    (∀ (s : IState) (line : String) (n : Nat),
      s.depth = 0 → s.history[s.line_no]? = some line → pyWords line = ["end"] →
      s.num_stack = [] →
      step s = .err "unmatched end" ∧ run (n + 1) s = .failed s "unmatched end")
    ∧ (∀ (s : IState) (line : String) (rest : List Int),
      s.depth = 0 → s.history[s.line_no]? = some line → pyWords line = ["end"] →
      s.num_stack = 0 :: rest →
      step s = .ok { s with num_stack := rest, line_stack := s.line_stack.tail, line_no := s.line_no + 1 })
    ∧ (∀ (s : IState) (line : String) (k : Int) (rest : List Int) (r : Nat) (rs : List Nat),
      s.depth = 0 → s.history[s.line_no]? = some line → pyWords line = ["end"] →
      s.num_stack = k :: rest → 0 < k → s.line_stack = r :: rs →
      step s = .ok { s with num_stack := (k - 1) :: rest, line_no := r }) := by
  refine ⟨?_, ?_, ?_⟩
  · intro s line n hd hget hwords hns
    have hstep : step s = .err "unmatched end" := by
      simp [step, hget, hwords, List.lookup, opcodes, check_types_dictcall, hd, hns]
    exact ⟨hstep, by simp [run, hstep]⟩
  · intro s line rest hd hget hwords hns
    simp [step, hget, hwords, List.lookup, opcodes, check_types_dictcall, hd, hns]
  · intro s line k rest r rs hd hget hwords hns hk hls
    have hk0 : ¬ (k = 0) := by omega
    simp [step, hget, hwords, List.lookup, opcodes, check_types_dictcall, hd, hns, hk0, hls]

/-- Witness for `c4_end_instruction` at concrete states. -/
theorem c4_witness :
    (step { history := ["end"], line_no := 0, num_stack := [], line_stack := [],
            depth := 0, output := [] } = .err "unmatched end"
     ∧ run 1 { history := ["end"], line_no := 0, num_stack := [], line_stack := [],
               depth := 0, output := [] } =
       .failed { history := ["end"], line_no := 0, num_stack := [], line_stack := [],
                 depth := 0, output := [] } "unmatched end")
    ∧ step { history := ["end"], line_no := 0, num_stack := [0], line_stack := [1],
             depth := 0, output := [] } =
      .ok { history := ["end"], line_no := 1, num_stack := [], line_stack := [],
            depth := 0, output := [] }
    ∧ step { history := ["end"], line_no := 0, num_stack := [2], line_stack := [1],
             depth := 0, output := [] } =
      .ok { history := ["end"], line_no := 1, num_stack := [1], line_stack := [1],
            depth := 0, output := [] } :=
  ⟨c4_end_instruction.1 _ "end" 0 rfl rfl rfl rfl,
   c4_end_instruction.2.1 _ "end" [] rfl rfl rfl rfl,
   c4_end_instruction.2.2 _ "end" 2 [] 1 [] rfl rfl rfl rfl (by decide) rfl⟩

/-- C10: the interpreter's operand-type validation can never fire — for a
line with a known opcode and matching operand count, `step` never raises
`Invalid types` (the source calls `check_types(args, opcodes)` against the
whole table, which always returns `False`); concretely `fd t abc` with a
non-numeric amount is forwarded to the side-effect sink. -/
theorem c10_types_never_checked :
    (∀ (s : IState) (line op : String) (args : List String) (tys : List PyTy),
      s.history[s.line_no]? = some line →
      pyWords line = op :: args →
      opcodes.lookup op = some tys →
      args.length = tys.length →
      step s ≠ .err "Invalid types")
    ∧ run 3 (initState ["fd t abc"]) =
      .halted { history := ["fd t abc"], line_no := 1, num_stack := [], line_stack := [],
                depth := 0, output := [("fd", ["t", "abc"])] } := by
  constructor
  · intro s line op args tys hget hwords hop hlen
    have hdc := dictcall_false args tys hlen (opcodes_tys_le_two op tys hop)
    intro hcontra
    simp only [step, hget, hwords, hop, hdc, if_neg (by omega : ¬ args.length ≠ tys.length)] at hcontra
    repeat' split at hcontra
    all_goals try simp_all
    rename_i hnone
    rw [lookup_eq_none_of opcodes op hnone] at hop
    exact Option.noConfusion hop
  · decide

/-- Witness for the hypothesised part of `c10_types_never_checked`. -/
theorem c10_witness :
    step { history := ["fd t abc"], line_no := 0, num_stack := [], line_stack := [],
           depth := 0, output := [] } ≠ .err "Invalid types" :=
  c10_types_never_checked.1
    { history := ["fd t abc"], line_no := 0, num_stack := [], line_stack := [],
      depth := 0, output := [] }
    "fd t abc" "fd" ["t", "abc"] [.str, .float] rfl rfl rfl rfl

theorem drop_cons_get {α : Type} (l : List α) (p : Nat) (x : α) (xs : List α)
    (h : l.drop p = x :: xs) : l[p]? = some x ∧ l.drop (p + 1) = xs := by
  induction p generalizing l with
  | zero =>
    cases l with
    | nil => simp at h
    | cons a as =>
      simp only [List.drop_zero] at h
      cases h
      exact ⟨by simp, rfl⟩
  | succ n ih =>
    cases l with
    | nil => simp at h
    | cons a as =>
      simp only [List.drop_succ_cons] at h
      simpa using ih as h

theorem findEndAux_ge (suf : List String) (p d j : Nat)
    (h : findEndAux suf p d = some j) : p ≤ j := by
  induction suf generalizing p d with
  | nil => simp [findEndAux] at h
  | cons line rest ih =>
    simp only [findEndAux] at h
    split at h
    · split at h
      · exact le_trans (Nat.le_succ p) (ih _ _ h)
      · split at h
        · split at h
          · cases h; omega
          · exact le_trans (Nat.le_succ p) (ih _ _ h)
        · exact le_trans (Nat.le_succ p) (ih _ _ h)
    · exact le_trans (Nat.le_succ p) (ih _ _ h)

theorem lineOk_spec (line : String) (h : lineOk line = true) :
    ∃ op args tys, pyWords line = op :: args ∧ opcodes.lookup op = some tys ∧
      args.length = tys.length := by
  unfold lineOk at h
  split at h
  · exact absurd h (by simp)
  · rename_i op args heq
    split at h
    · exact absurd h (by simp)
    · rename_i tys heq2
      exact ⟨op, args, tys, heq, heq2, by simpa using h⟩

/-- While `depth = d ≥ 1`, the interpreter scans to the `end` matching the
outermost open block (found by `findEndAux`), touching neither the loop
stacks nor the output, and leaves skipping mode exactly there. -/
theorem skip_phase (hist : List String) :
    ∀ (suf : List String) (p d j : Nat) (ns : List Int) (ls : List Nat)
      (out : List (String × List String)),
    hist.drop p = suf → 1 ≤ d →
    findEndAux suf p d = some j →
    (∀ k, p ≤ k → k ≤ j → lineOkAt hist k = true) →
    stepsN (j + 1 - p) ⟨hist, p, ns, ls, d, out⟩ = some ⟨hist, j + 1, ns, ls, 0, out⟩ := by
  intro suf
  induction suf with
  | nil =>
    intro p d j ns ls out hdrop hd hfind hok
    simp [findEndAux] at hfind
  | cons line rest ih =>
    intro p d j ns ls out hdrop hd hfind hok
    obtain ⟨hget, hdrop2⟩ := drop_cons_get hist p line rest hdrop
    have hpj : p ≤ j := findEndAux_ge _ p d j hfind
    have hlineok : lineOk line = true := by
      have hk := hok p le_rfl hpj
      unfold lineOkAt at hk
      rw [hget] at hk
      exact hk
    obtain ⟨op, args, tys, hwords, hop, hlen⟩ := lineOk_spec line hlineok
    have hdc := dictcall_false args tys hlen (opcodes_tys_le_two op tys hop)
    have hdpos : 0 < d := hd
    have hstep : step ⟨hist, p, ns, ls, d, out⟩ =
        .ok ⟨hist, p + 1, ns, ls,
             (if op = "repeat" then d + 1 else if op = "end" then d - 1 else d), out⟩ := by
      simp [step, hget, hwords, hop, hdc, hlen, hdpos]
    simp only [findEndAux] at hfind
    rw [hwords] at hfind
    by_cases hrep : op = "repeat"
    · simp only [if_pos hrep] at hfind hstep
      have hpj2 : p + 1 ≤ j := findEndAux_ge _ _ _ _ hfind
      rw [show j + 1 - p = (j + 1 - (p + 1)) + 1 by omega]
      simp only [stepsN, hstep]
      exact ih (p + 1) (d + 1) j ns ls out hdrop2 (by omega) hfind
        (fun k h1 h2 => hok k (by omega) h2)
    · by_cases hend : op = "end"
      · simp only [if_neg hrep, if_pos hend] at hfind hstep
        by_cases hd1 : d = 1
        · rw [if_pos hd1] at hfind
          cases hfind
          subst hd1
          rw [show p + 1 - p = 1 by omega]
          simp [stepsN, hstep]
        · rw [if_neg hd1] at hfind
          have hpj2 : p + 1 ≤ j := findEndAux_ge _ _ _ _ hfind
          rw [show j + 1 - p = (j + 1 - (p + 1)) + 1 by omega]
          simp only [stepsN, hstep]
          exact ih (p + 1) (d - 1) j ns ls out hdrop2 (by omega) hfind
            (fun k h1 h2 => hok k (by omega) h2)
      · simp only [if_neg hrep, if_neg hend] at hfind hstep
        have hpj2 : p + 1 ≤ j := findEndAux_ge _ _ _ _ hfind
        rw [show j + 1 - p = (j + 1 - (p + 1)) + 1 by omega]
        simp only [stepsN, hstep]
        exact ih (p + 1) d j ns ls out hdrop2 hd hfind
          (fun k h1 h2 => hok k (by omega) h2)

/-- C2: from a `repeat 0` at position `i` (depth 0), with `j` the matching
`end` (nested blocks included) and every line in between well-formed, the
interpreter performs `j + 1 - i` steps that leave the loop stacks and the
output untouched (no side effect is emitted) and arrives at the
instruction after the matching `end` in normal (non-skipping) mode. -/
theorem c2_repeat_zero_skip (hist : List String) (i j : Nat) (ns : List Int)
    (ls : List Nat) (out : List (String × List String)) (z : String)
    (hline : hist[i]? = some z) (hz : pyWords z = ["repeat", "0"])
    (hmatch : findEnd hist (i + 1) 1 = some j)
    (hok : ∀ k, i + 1 ≤ k → k ≤ j → lineOkAt hist k = true) :
    stepsN (j + 1 - i) ⟨hist, i, ns, ls, 0, out⟩ = some ⟨hist, j + 1, ns, ls, 0, out⟩ := by
  unfold findEnd at hmatch
  have hij : i + 1 ≤ j := findEndAux_ge _ _ _ _ hmatch
  have h0 : pyToInt? "0" = some 0 := by decide
  have hstep : step ⟨hist, i, ns, ls, 0, out⟩ = .ok ⟨hist, i + 1, ns, ls, 1, out⟩ := by
    simp [step, hline, hz, List.lookup, opcodes, check_types_dictcall, h0]
  rw [show j + 1 - i = (j + 1 - (i + 1)) + 1 by omega]
  simp only [stepsN, hstep]
  exact skip_phase hist (hist.drop (i + 1)) (i + 1) 1 j ns ls out rfl le_rfl hmatch hok

/-- Witness for `c2_repeat_zero_skip` on a stream with a nested
`repeat 0` block. -/
theorem c2_witness :
    stepsN 7 (initState ["repeat 0", "fd a 1", "repeat 0", "fd b 2", "end", "fd c 3", "end", "fd d 4"]) =
      some { history := ["repeat 0", "fd a 1", "repeat 0", "fd b 2", "end", "fd c 3", "end", "fd d 4"],
             line_no := 7, num_stack := [], line_stack := [], depth := 0, output := [] } :=
  c2_repeat_zero_skip
    ["repeat 0", "fd a 1", "repeat 0", "fd b 2", "end", "fd c 3", "end", "fd d 4"]
    0 6 [] [] [] "repeat 0" rfl rfl (by decide)
    (fun k h1 h2 => by interval_cases k <;> decide)

/-! ## Claims about the CSR compiler -/

theorem foldl_keep_filter {α : Type} (P : α → Bool) (l : List α) (acc : List α) :
    l.foldl (fun acc e => if P e then acc else acc ++ [e]) acc
      = acc ++ l.filter (fun e => !P e) := by
  induction l generalizing acc with
  | nil => simp
  | cons x xs ih =>
    by_cases h : P x <;> simp [h, ih]

/-- C9: `delete_edges` only rewrites the target word: its new edge map is
the old one restricted to the non-deleted labels (deleted labels absent,
kept labels with identical child lists), and every child word reachable
from the result is the identical `Word` value as before (hence its edges,
phrase, word_objs and word_strs are untouched). -/
theorem c9_delete_edges_frame (w : Word) (labels : List String) :
    (delete_edges w labels).edges = w.edges.filter (fun e => !labels.contains e.1)
    ∧ (∀ l ws, (l, ws) ∈ (delete_edges w labels).edges → (l, ws) ∈ w.edges)
    ∧ (∀ c, c ∈ (delete_edges w labels).childrenAll → c ∈ w.childrenAll) := by
  obtain ⟨t, i, p, es, strs, wo, ph⟩ := w
  have hedges : (delete_edges (Word.mk t i p es strs wo ph) labels).edges
      = es.filter (fun e => !labels.contains e.1) := by
    show (es.foldl (fun acc e => if labels.contains e.1 then acc else acc ++ [e]) [])
        = es.filter (fun e => !labels.contains e.1)
    simpa using foldl_keep_filter (fun e => labels.contains e.1) es []
  refine ⟨hedges, ?_, ?_⟩
  · intro l ws h
    rw [hedges] at h
    exact (List.mem_filter.mp h).1
  · intro c hc
    unfold Word.childrenAll at hc ⊢
    rw [hedges] at hc
    obtain ⟨e, he, hce⟩ := List.mem_flatMap.mp hc
    exact List.mem_flatMap.mpr ⟨e, (List.mem_filter.mp he).1, hce⟩

/-- Witness for `c9_delete_edges_frame` at a concrete tree. -/
theorem c9_witness :
    ("dobj", [rawW "C" 3 "NNP" []]) ∈ delExW.edges
    ∧ (delete_edges delExW ["cc"]).edges
        = delExW.edges.filter (fun e => !(["cc"].contains e.1)) :=
  ⟨(c9_delete_edges_frame delExW ["cc"]).2.1 "dobj" [rawW "C" 3 "NNP" []]
      (List.Mem.head _),
   (c9_delete_edges_frame delExW ["cc"]).1⟩

/-- C6 is a code bug: with a `conj` edge but no `cc` edge (or vice versa),
`AndCSR.detect` evaluates the undefined name `errmsg` while building the
intended `CONJCC` error, so Python raises a `NameError` instead of the
intended `CEList`.  The other two behaviours hold: no `cc` and no `conj`
gives `None`, and parallel edges with a non-`and` conjunction give a
`BadData` error on `cc`. -/
theorem c6_andcsr_guards :
    (∀ w : Word, w.get ["cc"] = [] → w.get ["conj"] = [] → AndCSR_detect w = .ok none)
    ∧ AndCSR_detect conjOnlyW = .error (.nameError "errmsg")
    ∧ AndCSR_detect orCCW = .error (.ce [BadDataCE orCCW "cc" "or"]) := by
  refine ⟨?_, rfl, rfl⟩
  intro w h1 h2
  simp [AndCSR_detect, h1, h2]

/-- Witness for the universal part of `c6_andcsr_guards`. -/
theorem c6_witness : AndCSR_detect (rawW "solo" 1 "NN" []) = .ok none :=
  c6_andcsr_guards.1 (rawW "solo" 1 "NN" []) rfl rfl

/-- C7 is a code bug at the too-many-directions branch: with a matched
pattern and two direction words, `MoveCSR.detect` evaluates the undefined
name `TooManyValues` (the class is `TooManyValuesCE`), so Python raises a
`NameError` rather than a `CEList` with a `TooManyValues` error.  Zero
direction words do raise a `CEList` with a `MissingData` error, and in
neither case is `None` returned. -/
theorem c7_movecsr_direction :
    MoveCSR_detect twoDirRoot = .error (.nameError "TooManyValues")
    ∧ MoveCSR_detect noDirRoot = .error (.ce [MissingDataCE noDirRoot "direction"])
    ∧ MoveCSR_detect twoDirRoot ≠ .ok none
    ∧ MoveCSR_detect noDirRoot ≠ .ok none := by
  refine ⟨rfl, rfl, ?_, ?_⟩
  · intro h
    rw [show MoveCSR_detect twoDirRoot = .error (.nameError "TooManyValues") from rfl] at h
    exact Except.noConfusion h
  · intro h
    rw [show MoveCSR_detect noDirRoot
        = .error (.ce [MissingDataCE noDirRoot "direction"]) from rfl] at h
    exact Except.noConfusion h

/-- C5 is a code bug in the ambiguity report: on a phrase matched by both
terminal CSRs, `apply_csrs` raises a `ManyCSRCE` whose `errcode` is the
list of matching CSRs (passed positionally into the `errcode` slot) and
whose `csr_list` attribute stays its default `()` — so the error does not
carry errcode `MANYCSR` and its message names no CSRs.  The other two
behaviours hold: exactly one match invokes that CSR's `apply`, and no
match in either pool makes `convert` raise `NoCSR`. -/
theorem c5_csr_selection :
    convert 5 bothRoot = .error (.ce [ManyCSRCE bothRoot (.csrs [.makeCSR, .moveCSR])])
    ∧ (ManyCSRCE bothRoot (.csrs [.makeCSR, .moveCSR])).errcode = .csrs [.makeCSR, .moveCSR]
    ∧ (ManyCSRCE bothRoot (.csrs [.makeCSR, .moveCSR])).errcode ≠ .str "MANYCSR"
    ∧ (ManyCSRCE bothRoot (.csrs [.makeCSR, .moveCSR])).csr_list = []
    ∧ convert 5 makeOnlyRoot = .ok ["create alice"]
    ∧ convert 5 noneRoot = .error (.ce [NoCSRCE noneRoot]) := by
  exact ⟨rfl, rfl, by decide, rfl, rfl, rfl⟩

theorem delete_edges_text (w : Word) (labels : List String) :
    (delete_edges w labels).text = w.text := by
  obtain ⟨t, i, p, es, strs, wo, ph⟩ := w
  rfl

/-- C1 counterexample: on `make Alice and make Bob and do it twice` the
compiled output starts with the `repeat 2` marker (the wrapper's sub-phrase
contributes nothing), so it is not of the claimed shape
`code A ++ code B ++ [repeat 2] ++ code C ++ [end]` for any `code C`
(here `code A = [create alice]`, `code B = [create bob]`). -/
theorem c1_counterexample :
    convert 6 andRoot = .ok ["repeat 2", "create alice", "create bob", "end"]
    ∧ ¬ ∃ codeC : List String,
        ["repeat 2", "create alice", "create bob", "end"] =
          ["create alice", "create bob", "repeat 2"] ++ codeC ++ ["end"] := by
  refine ⟨rfl, ?_⟩
  rintro ⟨c, h⟩
  have hhead := congrArg (fun l => l.headD "") h
  simp at hhead

/-- C1 amended: for a conjunction whose root has conjuncts `[B, W]` with
`W` a `do`/`repeat` wrapper carrying repetition count 2 (via `twice` in its
span), `AndCSR.detect` followed by `AndCSR.apply` produces
`repeat 2; code(A'); code(B); end` where `A'` is the root with its
`conj`/`cc` edges deleted: the repeat marker precedes all non-wrapper
parts (kept in original order), the `end` closes the block, and the
wrapper's own sub-phrase contributes no code. -/
theorem c1_amended (root tB tW : Word) (la lb : List String) (n : Nat)
    (hconj : root.get ["conj"] = [tB, tW])
    (hccne : (root.get ["cc"]).isEmpty = false)
    (hccand : ∀ x ∈ root.get ["cc"], x.text = "and")
    (hW : tW.text = "do")
    (hWtimes : tW.word_objs.filter (fun x => x.text = "times") = [])
    (hWonce : "once" ∉ tW.word_strs)
    (hWtwice : "twice" ∈ tW.word_strs)
    (hB : ¬ (pyLower tB.text = "do" ∨ pyLower tB.text = "repeat"))
    (hA : ¬ (pyLower root.text = "do" ∨ pyLower root.text = "repeat"))
    (hla : convert n (delete_edges root ["conj", "cc"]) = .ok la)
    (hlb : convert n tB = .ok lb) :
    AndCSR_detect root = .ok (some [.instr "repeat 2",
      .word (delete_edges root ["conj", "cc"]), .word tB, .instr "end"])
    ∧ AndCSR_apply (convert n)
        [.instr "repeat 2", .word (delete_edges root ["conj", "cc"]), .word tB, .instr "end"]
      = .ok (["repeat 2"] ++ la ++ lb ++ ["end"]) := by
  constructor
  · have hfind : (root.get ["cc"]).find? (fun x => x.text ≠ "and") = none := by
      rw [List.find?_eq_none]
      intro x hx
      simp [hccand x hx]
    have hWcond : pyLower tW.text = "do" := by rw [hW]; decide
    have hAcond : ¬ (pyLower (delete_edges root ["conj", "cc"]).text = "do"
        ∨ pyLower (delete_edges root ["conj", "cc"]).text = "repeat") := by
      rw [delete_edges_text]; exact hA
    simp only [AndCSR_detect, hconj, hccne, hfind]
    simp only [List.isEmpty_cons, List.reverse_cons, List.reverse_nil,
      List.nil_append, List.cons_append]
    simp [AndCSR_loop, hWcond, hWtimes, hWonce, hWtwice, hB, hAcond]
    decide
  · simp [AndCSR_apply, List.mapM.loop, hla, hlb]
    rfl

/-- Witness for `c1_amended` on the concrete tree of
`make Alice and make Bob and do it twice`. -/
theorem c1_witness :
    AndCSR_detect andRoot = .ok (some [.instr "repeat 2",
      .word (delete_edges andRoot ["conj", "cc"]), .word andPartB, .instr "end"])
    ∧ AndCSR_apply (convert 5)
        [.instr "repeat 2", .word (delete_edges andRoot ["conj", "cc"]),
         .word andPartB, .instr "end"]
      = .ok (["repeat 2"] ++ ["create alice"] ++ ["create bob"] ++ ["end"]) :=
  c1_amended andRoot andPartB andPartW ["create alice"] ["create bob"] 5
    rfl rfl (by decide) rfl rfl (by decide) (by decide) (by decide) (by decide) rfl rfl

/-! ## Claim C8: phrase spans -/

theorem insertByNo_perm (x : Word) (l : List Word) : (insertByNo x l).Perm (x :: l) := by
  induction l with
  | nil => rfl
  | cons y ys ih =>
    unfold insertByNo
    split
    · exact (ih.cons y).trans (List.Perm.swap x y ys)
    · rfl

theorem sortByNo_perm (l : List Word) : (sortByNo l).Perm l := by
  induction l with
  | nil => rfl
  | cons x xs ih => exact (insertByNo_perm x (sortByNo xs)).trans (ih.cons x)

theorem mem_insertByNo {x y : Word} {l : List Word} :
    y ∈ insertByNo x l ↔ y = x ∨ y ∈ l :=
  (insertByNo_perm x l).mem_iff.trans List.mem_cons

theorem insertByNo_sorted (x : Word) (l : List Word)
    (h : List.Pairwise (fun a b => a.word_no ≤ b.word_no) l) :
    List.Pairwise (fun a b => a.word_no ≤ b.word_no) (insertByNo x l) := by
  induction l with
  | nil => simp [insertByNo]
  | cons y ys ih =>
    unfold insertByNo
    rcases h with _ | ⟨hy, hys⟩
    split
    · rename_i hlt
      refine List.Pairwise.cons ?_ (ih hys)
      intro z hz
      rcases mem_insertByNo.mp hz with rfl | hz
      · omega
      · exact hy z hz
    · rename_i hnlt
      refine List.Pairwise.cons ?_ (List.Pairwise.cons hy hys)
      intro z hz
      rcases List.mem_cons.mp hz with rfl | hz
      · omega
      · have := hy _ hz
        omega

theorem sortByNo_sorted (l : List Word) :
    List.Pairwise (fun a b => a.word_no ≤ b.word_no) (sortByNo l) := by
  induction l with
  | nil => simp [sortByNo]
  | cons x xs ih => exact insertByNo_sorted x (sortByNo xs) ih

theorem flatMap_perm_congr {α β : Type} {l : List α} {g h : α → List β}
    (H : ∀ a ∈ l, (g a).Perm (h a)) : (l.flatMap g).Perm (l.flatMap h) := by
  induction l with
  | nil => rfl
  | cons x xs ih =>
    simp only [List.flatMap_cons]
    exact (H x (List.mem_cons_self x xs)).append
      (ih (fun a ha => H a (List.mem_cons_of_mem x ha)))

theorem pairwise_flatMap {α β : Type} (R : β → β → Prop) (g : α → List β) (l : List α)
    (h1 : ∀ a ∈ l, List.Pairwise R (g a))
    (h2 : List.Pairwise (fun a b => ∀ x ∈ g a, ∀ y ∈ g b, R x y) l) :
    List.Pairwise R (l.flatMap g) := by
  induction l with
  | nil => simp
  | cons x xs ih =>
    simp only [List.flatMap_cons]
    rcases h2 with _ | ⟨hx, hxs⟩
    rw [List.pairwise_append]
    refine ⟨h1 x (List.mem_cons_self x xs),
      ih (fun a ha => h1 a (List.mem_cons_of_mem x ha)) hxs, ?_⟩
    intro u hu v hv
    obtain ⟨b, hb, hvb⟩ := List.mem_flatMap.mp hv
    exact hx b hb u hu v hvb

theorem nodup_of_mem_flatMap {α β : Type} (g : α → List β) (l : List α)
    (h : (l.flatMap g).Nodup) (a : α) (ha : a ∈ l) : (g a).Nodup := by
  induction l with
  | nil => cases ha
  | cons x xs ih =>
    simp only [List.flatMap_cons] at h
    rcases List.mem_cons.mp ha with rfl | ha
    · exact h.of_append_left
    · exact ih h.of_append_right ha

theorem treeFits_pos {n : Nat} {w : Word} (h : treeFits n w = true) : 1 ≤ n := by
  cases n with
  | zero => simp [treeFits] at h
  | succ m => omega

theorem treeFits_child {n : Nat} {w c : Word} (h : treeFits (n + 1) w = true)
    (hc : c ∈ w.childrenAll) : treeFits n c = true := by
  simp only [treeFits, List.all_eq_true] at h
  exact h c hc

theorem find_phrase_word_no (n : Nat) (w : Word) :
    (find_phrase n w).word_no = w.word_no := by
  cases n with
  | zero => rfl
  | succ m => cases w; rfl

theorem find_phrase_text (n : Nat) (w : Word) :
    (find_phrase n w).text = w.text := by
  cases n with
  | zero => rfl
  | succ m => cases w; rfl

theorem self_mem_subtreeWords {n : Nat} {w : Word} (h : 1 ≤ n) :
    w ∈ subtreeWords n w := by
  cases n with
  | zero => omega
  | succ m => exact List.mem_cons_self w _

theorem mem_subtreeWords_child {n : Nat} {w c x : Word} (hc : c ∈ w.childrenAll)
    (hx : x ∈ subtreeWords n c) : x ∈ subtreeWords (n + 1) w := by
  simp only [subtreeWords]
  exact List.mem_cons_of_mem w (List.mem_flatMap.mpr ⟨c, hc, hx⟩)

theorem subtreeWords_mono : ∀ {n m : Nat}, n ≤ m → ∀ {w x : Word},
    x ∈ subtreeWords n w → x ∈ subtreeWords m w := by
  intro n
  induction n with
  | zero => intro m _ w x hx; simp [subtreeWords] at hx
  | succ k ih =>
    intro m hm w x hx
    obtain ⟨m', rfl⟩ : ∃ m', m = m' + 1 := ⟨m - 1, by omega⟩
    simp only [subtreeWords] at hx ⊢
    rcases List.mem_cons.mp hx with rfl | hx
    · exact List.mem_cons_self x _
    · obtain ⟨c, hc, hxc⟩ := List.mem_flatMap.mp hx
      exact List.mem_cons_of_mem w (List.mem_flatMap.mpr ⟨c, hc, ih (by omega) hxc⟩)

theorem subtreeNos_mono {n m : Nat} (hm : n ≤ m) {w : Word} {i : Nat}
    (hx : i ∈ subtreeNos n w) : i ∈ subtreeNos m w := by
  obtain ⟨x, hxw, rfl⟩ := List.mem_map.mp hx
  exact List.mem_map.mpr ⟨x, subtreeWords_mono hm hxw, rfl⟩

theorem sepAt_mono {n m : Nat} (hm : n ≤ m) {v : Word} (h : SepAt m v) : SepAt n v := by
  obtain ⟨h1, h2⟩ := h
  refine ⟨?_, ?_⟩
  · intro c hc
    obtain ⟨ha, hb⟩ := h1 c hc
    exact ⟨fun hlt i hi => ha hlt i (subtreeNos_mono hm hi),
           fun hlt i hi => hb hlt i (subtreeNos_mono hm hi)⟩
  · intro c hc c2 hc2 hlt i hi j hj
    exact h2 c hc c2 hc2 hlt i (subtreeNos_mono hm hi) j (subtreeNos_mono hm hj)

theorem projective_child {n : Nat} {w c : Word} (h : Projective (n + 1) w)
    (hc : c ∈ w.childrenAll) : Projective n c := by
  intro v hv
  exact sepAt_mono (Nat.le_succ n) (h v (mem_subtreeWords_child hc hv))

theorem nodup_child {n : Nat} {w c : Word} (h : (subtreeNos (n + 1) w).Nodup)
    (hc : c ∈ w.childrenAll) : (subtreeNos n c).Nodup := by
  simp only [subtreeNos, subtreeWords, List.map_cons] at h
  have h2 := h.of_cons
  rw [List.map_flatMap] at h2
  exact nodup_of_mem_flatMap _ _ h2 c hc

theorem projective_self {n : Nat} {w : Word} (h : Projective n w) (hn : 1 ≤ n) :
    SepAt n w :=
  h w (self_mem_subtreeWords hn)

theorem find_phrase_perm : ∀ (n : Nat) (w : Word), treeFits n w = true →
    ((find_phrase n w).word_objs.map fwt).Perm ((subtreeWords n w).map fwt) := by
  intro n
  induction n with
  | zero => intro w h; simp [treeFits] at h
  | succ k ih =>
    intro w hfit
    obtain ⟨t, i, p, es, strs, wo, ph⟩ := w
    have hch : (Word.mk t i p es strs wo ph).childrenAll = es.flatMap (fun e => e.2) := rfl
    have K1 : (sortByNo ((es.map (fun e => (e.1, (sortByNo e.2).map (find_phrase k)))).flatMap
          (fun e => e.2))).Perm ((es.flatMap (fun e => e.2)).map (find_phrase k)) := by
      refine (sortByNo_perm _).trans ?_
      have h1 : (es.map (fun e => (e.1, (sortByNo e.2).map (find_phrase k)))).flatMap
          (fun e => e.2) = es.flatMap (fun e => (sortByNo e.2).map (find_phrase k)) := by
        simp [List.flatMap_map]
      rw [h1, List.map_flatMap]
      exact flatMap_perm_congr (fun e he => (sortByNo_perm e.2).map (find_phrase k))
    show ((((sortByNo ((es.map (fun e => (e.1, (sortByNo e.2).map (find_phrase k)))).flatMap
          (fun e => e.2))).filter (fun c => c.word_no < i)).flatMap Word.word_objs
        ++ [Word.mk t i p (es.map (fun e => (e.1, (sortByNo e.2).map (find_phrase k)))) [] [] ""]
        ++ ((sortByNo ((es.map (fun e => (e.1, (sortByNo e.2).map (find_phrase k)))).flatMap
          (fun e => e.2))).filter (fun c => ¬ (c.word_no < i))).flatMap Word.word_objs).map fwt).Perm
      ((subtreeWords (k + 1) (Word.mk t i p es strs wo ph)).map fwt)
    generalize hK : sortByNo ((es.map (fun e => (e.1, (sortByNo e.2).map (find_phrase k)))).flatMap
          (fun e => e.2)) = kids at K1
    have hsplit : ((kids.filter (fun c => c.word_no < i)).flatMap Word.word_objs
        ++ (kids.filter (fun c => ¬ (c.word_no < i))).flatMap Word.word_objs).Perm
        (kids.flatMap Word.word_objs) := by
      have hp : (kids.filter (fun c => c.word_no < i)
          ++ kids.filter (fun c => ¬ (c.word_no < i))).Perm kids := by
        simpa only [decide_not] using
          List.filter_append_perm (fun c => decide (c.word_no < i)) kids
      rw [← List.flatMap_append]
      exact List.Perm.flatMap_right _ hp
    have hkids2 : ((kids.flatMap Word.word_objs).map fwt).Perm
        (((es.flatMap (fun e => e.2)).flatMap (subtreeWords k)).map fwt) := by
      rw [List.map_flatMap, List.map_flatMap]
      refine (List.Perm.flatMap_right _ K1).trans ?_
      rw [List.flatMap_map]
      refine flatMap_perm_congr ?_
      intro c0 hc0
      exact ih c0 (treeFits_child hfit (hch ▸ hc0))
    have hmain : ((kids.filter (fun c => c.word_no < i)).flatMap Word.word_objs
          ++ [Word.mk t i p (es.map (fun e => (e.1, (sortByNo e.2).map (find_phrase k)))) [] [] ""]
          ++ (kids.filter (fun c => ¬ (c.word_no < i))).flatMap Word.word_objs).map fwt
        = ((kids.filter (fun c => c.word_no < i)).flatMap Word.word_objs).map fwt
          ++ fwt (Word.mk t i p es strs wo ph)
            :: ((kids.filter (fun c => ¬ (c.word_no < i))).flatMap Word.word_objs).map fwt := by
      simp [List.map_append, fwt, Word.word_no, Word.text]
    rw [hmain]
    refine List.Perm.trans List.perm_middle ?_
    have htail : (((kids.filter (fun c => c.word_no < i)).flatMap Word.word_objs).map fwt
        ++ ((kids.filter (fun c => ¬ (c.word_no < i))).flatMap Word.word_objs).map fwt).Perm
        (((es.flatMap (fun e => e.2)).flatMap (subtreeWords k)).map fwt) := by
      rw [← List.map_append]
      exact (hsplit.map fwt).trans hkids2
    refine (htail.cons _).trans ?_
    simp [subtreeWords, List.map_flatMap]
    rfl

theorem span_no_mem {k : Nat} {c0 x : Word} (hfit : treeFits k c0 = true)
    (hx : x ∈ (find_phrase k c0).word_objs) : x.word_no ∈ subtreeNos k c0 := by
  have hperm := find_phrase_perm k c0 hfit
  have hmem : fwt x ∈ (subtreeWords k c0).map fwt :=
    hperm.mem_iff.mp (List.mem_map_of_mem fwt hx)
  obtain ⟨y, hy, hyx⟩ := List.mem_map.mp hmem
  have hno : y.word_no = x.word_no := congrArg Prod.fst hyx
  exact hno ▸ List.mem_map.mpr ⟨y, hy, rfl⟩

theorem nodup_map_of_flatMap {α β : Type} (l : List α) (g : α → List β) (f : α → β)
    (hg : ∀ a ∈ l, f a ∈ g a) (h : (l.flatMap g).Nodup) : (l.map f).Nodup := by
  induction l with
  | nil => simp
  | cons x xs ih =>
    simp only [List.flatMap_cons] at h
    simp only [List.map_cons, List.nodup_cons]
    refine ⟨?_, ih (fun a ha => hg a (List.mem_cons_of_mem x ha)) h.of_append_right⟩
    intro hmem
    obtain ⟨y, hy, hxy⟩ := List.mem_map.mp hmem
    have h1 : f x ∈ g x := hg x (List.mem_cons_self x xs)
    have h2 : f y ∈ xs.flatMap g :=
      List.mem_flatMap.mpr ⟨y, hy, hg y (List.mem_cons_of_mem x hy)⟩
    exact (List.disjoint_of_nodup_append h) h1 (hxy ▸ h2)

theorem pairwise_lt_of_le_nodup {l : List Word}
    (hle : List.Pairwise (fun a b => a.word_no ≤ b.word_no) l)
    (hnd : (l.map Word.word_no).Nodup) :
    List.Pairwise (fun a b => a.word_no < b.word_no) l := by
  have hne : List.Pairwise (fun a b => a.word_no ≠ b.word_no) l := List.pairwise_map.mp hnd
  exact (hle.and hne).imp (fun h => lt_of_le_of_ne h.1 h.2)

theorem find_phrase_sorted : ∀ (n : Nat) (w : Word), treeFits n w = true →
    (subtreeNos n w).Nodup → Projective n w →
    List.Pairwise (fun a b => a.word_no < b.word_no) (find_phrase n w).word_objs := by
  intro n
  induction n with
  | zero => intro w h; simp [treeFits] at h
  | succ k ih =>
    intro w hfit hnd hproj
    obtain ⟨t, i, p, es, strs, wo, ph⟩ := w
    have hsep : SepAt (k + 1) (Word.mk t i p es strs wo ph) :=
      projective_self hproj (by omega)
    have hsep1 := hsep.1
    have hsep2 := hsep.2
    have hch : (Word.mk t i p es strs wo ph).childrenAll = es.flatMap (fun e => e.2) := rfl
    rw [hch] at hsep1 hsep2
    have K1 : (sortByNo ((es.map (fun e => (e.1, (sortByNo e.2).map (find_phrase k)))).flatMap
          (fun e => e.2))).Perm ((es.flatMap (fun e => e.2)).map (find_phrase k)) := by
      refine (sortByNo_perm _).trans ?_
      have h1 : (es.map (fun e => (e.1, (sortByNo e.2).map (find_phrase k)))).flatMap
          (fun e => e.2) = es.flatMap (fun e => (sortByNo e.2).map (find_phrase k)) := by
        simp [List.flatMap_map]
      rw [h1, List.map_flatMap]
      exact flatMap_perm_congr (fun e he => (sortByNo_perm e.2).map (find_phrase k))
    have hsorted : List.Pairwise (fun a b => a.word_no ≤ b.word_no)
        (sortByNo ((es.map (fun e => (e.1, (sortByNo e.2).map (find_phrase k)))).flatMap
          (fun e => e.2))) := sortByNo_sorted _
    show List.Pairwise (fun a b => a.word_no < b.word_no)
      ((((sortByNo ((es.map (fun e => (e.1, (sortByNo e.2).map (find_phrase k)))).flatMap
          (fun e => e.2))).filter (fun c => c.word_no < i)).flatMap Word.word_objs
        ++ [Word.mk t i p (es.map (fun e => (e.1, (sortByNo e.2).map (find_phrase k)))) [] [] ""]
        ++ ((sortByNo ((es.map (fun e => (e.1, (sortByNo e.2).map (find_phrase k)))).flatMap
          (fun e => e.2))).filter (fun c => ¬ (c.word_no < i))).flatMap Word.word_objs))
    generalize hK : sortByNo ((es.map (fun e => (e.1, (sortByNo e.2).map (find_phrase k)))).flatMap
          (fun e => e.2)) = kids at K1 hsorted
    -- children-level facts
    have hmem_kid : ∀ c ∈ kids, ∃ c0, c0 ∈ es.flatMap (fun e => e.2) ∧ c = find_phrase k c0 := by
      intro c hc
      obtain ⟨c0, hc0, h⟩ := List.mem_map.mp (K1.mem_iff.mp hc)
      exact ⟨c0, hc0, h.symm⟩
    have hfit0 : ∀ c0 ∈ es.flatMap (fun e => e.2), treeFits k c0 = true := by
      intro c0 hc0
      exact treeFits_child hfit (show c0 ∈ (Word.mk t i p es strs wo ph).childrenAll from hc0)
    have hnd0 : ∀ c0 ∈ es.flatMap (fun e => e.2), (subtreeNos k c0).Nodup := by
      intro c0 hc0
      exact nodup_child hnd (show c0 ∈ (Word.mk t i p es strs wo ph).childrenAll from hc0)
    have hproj0 : ∀ c0 ∈ es.flatMap (fun e => e.2), Projective k c0 := by
      intro c0 hc0
      exact projective_child hproj (show c0 ∈ (Word.mk t i p es strs wo ph).childrenAll from hc0)
    have hself_no : ∀ c0 ∈ es.flatMap (fun e => e.2), c0.word_no ∈ subtreeNos k c0 := by
      intro c0 hc0
      exact List.mem_map.mpr ⟨c0, self_mem_subtreeWords (treeFits_pos (hfit0 c0 hc0)), rfl⟩
    have hnd2 : (i :: (es.flatMap (fun e => e.2)).flatMap (subtreeNos k)).Nodup := by
      have : subtreeNos (k + 1) (Word.mk t i p es strs wo ph)
          = i :: (es.flatMap (fun e => e.2)).flatMap (subtreeNos k) := by
        simp [subtreeNos, subtreeWords, List.map_flatMap]
        exact ⟨rfl, rfl⟩
      rwa [this] at hnd
    have hi_not : ∀ c0 ∈ es.flatMap (fun e => e.2), c0.word_no ≠ i := by
      intro c0 hc0 hcontra
      have hmem : i ∈ (es.flatMap (fun e => e.2)).flatMap (subtreeNos k) :=
        List.mem_flatMap.mpr ⟨c0, hc0, hcontra ▸ hself_no c0 hc0⟩
      exact (List.nodup_cons.mp hnd2).1 hmem
    -- strict order of the kid roots
    have hmapnodup : ((es.flatMap (fun e => e.2)).map Word.word_no).Nodup :=
      nodup_map_of_flatMap _ (subtreeNos k) Word.word_no hself_no (hnd2.of_cons)
    have hkidsnodup : (kids.map Word.word_no).Nodup := by
      have h1 : (kids.map Word.word_no).Perm
          (((es.flatMap (fun e => e.2)).map (find_phrase k)).map Word.word_no) := K1.map _
      have h2 : ((es.flatMap (fun e => e.2)).map (find_phrase k)).map Word.word_no
          = (es.flatMap (fun e => e.2)).map Word.word_no := by
        rw [List.map_map]
        exact List.map_congr_left (fun c0 hc0 => find_phrase_word_no k c0)
      rw [h2] at h1
      exact h1.nodup_iff.mpr hmapnodup
    have hkidslt : List.Pairwise (fun a b => a.word_no < b.word_no) kids :=
      pairwise_lt_of_le_nodup hsorted hkidsnodup
    -- subtree bounds
    have cross : ∀ a ∈ kids, ∀ b ∈ kids, a.word_no < b.word_no →
        ∀ x ∈ a.word_objs, ∀ y ∈ b.word_objs, x.word_no < y.word_no := by
      intro a ha b hb hab x hx y hy
      obtain ⟨a0, ha0, rfl⟩ := hmem_kid a ha
      obtain ⟨b0, hb0, rfl⟩ := hmem_kid b hb
      rw [find_phrase_word_no, find_phrase_word_no] at hab
      have hxn : x.word_no ∈ subtreeNos (k + 1) a0 :=
        subtreeNos_mono (Nat.le_succ k) (span_no_mem (hfit0 a0 ha0) hx)
      have hyn : y.word_no ∈ subtreeNos (k + 1) b0 :=
        subtreeNos_mono (Nat.le_succ k) (span_no_mem (hfit0 b0 hb0) hy)
      exact hsep2 a0 ha0 b0 hb0 hab _ hxn _ hyn
    have left_bound : ∀ a ∈ kids, a.word_no < i → ∀ x ∈ a.word_objs, x.word_no < i := by
      intro a ha hai x hx
      obtain ⟨a0, ha0, rfl⟩ := hmem_kid a ha
      rw [find_phrase_word_no] at hai
      exact (hsep1 a0 ha0).1 hai _
        (subtreeNos_mono (Nat.le_succ k) (span_no_mem (hfit0 a0 ha0) hx))
    have right_bound : ∀ a ∈ kids, ¬ (a.word_no < i) → ∀ x ∈ a.word_objs, i < x.word_no := by
      intro a ha hai x hx
      obtain ⟨a0, ha0, rfl⟩ := hmem_kid a ha
      rw [find_phrase_word_no] at hai
      have hlt : i < a0.word_no := lt_of_le_of_ne (not_lt.mp hai) (Ne.symm (hi_not a0 ha0))
      exact (hsep1 a0 ha0).2 hlt _
        (subtreeNos_mono (Nat.le_succ k) (span_no_mem (hfit0 a0 ha0) hx))
    -- per-kid sortedness
    have kid_sorted : ∀ a ∈ kids, List.Pairwise (fun x y => x.word_no < y.word_no) a.word_objs := by
      intro a ha
      obtain ⟨a0, ha0, rfl⟩ := hmem_kid a ha
      exact ih a0 (hfit0 a0 ha0) (hnd0 a0 ha0) (hproj0 a0 ha0)
    -- assemble
    have hcrossP : ∀ (P : Word → Bool),
        List.Pairwise (fun a b => ∀ x ∈ a.word_objs, ∀ y ∈ b.word_objs,
          x.word_no < y.word_no) (kids.filter P) := by
      intro P
      refine List.Pairwise.imp_of_mem ?_ (hkidslt.filter P)
      intro a b ha hb hab
      exact cross a (List.mem_of_mem_filter ha) b (List.mem_of_mem_filter hb) hab
    have hleft : List.Pairwise (fun x y => x.word_no < y.word_no)
        ((kids.filter (fun c => c.word_no < i)).flatMap Word.word_objs) :=
      pairwise_flatMap _ _ _
        (fun a ha => kid_sorted a (List.mem_of_mem_filter ha)) (hcrossP _)
    have hright : List.Pairwise (fun x y => x.word_no < y.word_no)
        ((kids.filter (fun c => ¬ (c.word_no < i))).flatMap Word.word_objs) :=
      pairwise_flatMap _ _ _
        (fun a ha => kid_sorted a (List.mem_of_mem_filter ha)) (hcrossP _)
    have hleft_mem : ∀ x ∈ (kids.filter (fun c => c.word_no < i)).flatMap Word.word_objs,
        x.word_no < i := by
      intro x hx
      obtain ⟨a, ha, hxa⟩ := List.mem_flatMap.mp hx
      have hai : a.word_no < i := by simpa using List.of_mem_filter ha
      exact left_bound a (List.mem_of_mem_filter ha) hai x hxa
    have hright_mem : ∀ x ∈ (kids.filter (fun c => ¬ (c.word_no < i))).flatMap Word.word_objs,
        i < x.word_no := by
      intro x hx
      obtain ⟨a, ha, hxa⟩ := List.mem_flatMap.mp hx
      have hai : ¬ (a.word_no < i) := by simpa using List.of_mem_filter ha
      exact right_bound a (List.mem_of_mem_filter ha) hai x hxa
    rw [List.append_assoc, List.pairwise_append]
    refine ⟨hleft, ?_, ?_⟩
    · rw [List.singleton_append, List.pairwise_cons]
      refine ⟨?_, hright⟩
      intro v hv
      show Word.word_no (Word.mk t i p _ [] [] "") < v.word_no
      exact hright_mem v hv
    · intro x hx v hv
      rcases List.mem_append.mp hv with hv | hv
      · rcases List.mem_singleton.mp hv with rfl
        show x.word_no < Word.word_no (Word.mk t i p _ [] [] "")
        exact hleft_mem x hx
      · exact lt_trans (hleft_mem x hx) (hright_mem v hv)

/-- C8 counterexample: on the non-projective three-node tree (root index 2,
child index 1 whose own child has index 3) the computed span is
`[1, 3, 2]`, not the ascending surface order `[1, 2, 3]`. -/
theorem c8_counterexample :
    (find_phrase 3 nonProjW).word_objs.map Word.word_no = [1, 3, 2]
    ∧ (find_phrase 3 nonProjW).word_objs.map Word.word_no ≠ [1, 2, 3] :=
  ⟨rfl, by decide⟩

/-- C8 amended: for every *projective* dependency tree with distinct
indices (each child subtree lies entirely on its own side of its governor
and sibling subtrees do not interleave), the computed span is exactly the
subtree's words in ascending sentence-index order — strictly sorted by
`word_no` and a permutation of the subtree (compared as
(index, text) pairs) — and the node's phrase is the space-join of the
span's texts. -/
theorem c8_amended (n : Nat) (w : Word) (hfit : treeFits n w = true)
    (hnd : (subtreeNos n w).Nodup) (hproj : Projective n w) :
    List.Pairwise (fun a b => a.word_no < b.word_no) (find_phrase n w).word_objs
    ∧ ((find_phrase n w).word_objs.map fwt).Perm ((subtreeWords n w).map fwt)
    ∧ (find_phrase n w).phrase = joinSpace ((find_phrase n w).word_objs.map Word.text) := by
  refine ⟨find_phrase_sorted n w hfit hnd hproj, find_phrase_perm n w hfit, ?_⟩
  obtain ⟨m, rfl⟩ : ∃ m, n = m + 1 := ⟨n - 1, by have := treeFits_pos hfit; omega⟩
  obtain ⟨t, i, p, es, strs, wo, ph⟩ := w
  rfl

/-- Witness for `c8_amended` on a concrete projective tree. -/
theorem c8_witness :
    List.Pairwise (fun a b => a.word_no < b.word_no) (find_phrase 3 projExW).word_objs
    ∧ ((find_phrase 3 projExW).word_objs.map fwt).Perm ((subtreeWords 3 projExW).map fwt)
    ∧ (find_phrase 3 projExW).phrase = joinSpace ((find_phrase 3 projExW).word_objs.map Word.text) :=
  c8_amended 3 projExW (by decide) (by decide) (by decide)
